import Mathlib

/-!
Verification of the `pandas_access` adapter (`src/pandas_access/__init__.py`).

The module shells out to the external `mdb-tools` commands, regex-parses the
schema dump, maps declared Access types to numpy dtypes, and post-processes
octal-escaped binary columns.  The shallow embedding below translates the
pure logic of the module:

* `findTables` embeds `TABLE_RE.findall` (the regex
  `CREATE TABLE \[(\w+)\]\s+\((.*?\));` with `MULTILINE | DOTALL`);
* `defLineMatch` embeds `DEF_RE.match` (the regex `\s*\[(\w+)\]\s*(.*)$`);
* `extract_defs` embeds `_extract_defs`;
* `read_schema` embeds the text processing of `read_schema` (the
  `mdb-schema` subprocess and byte decoding are external inputs, so the
  function takes the decoded output text);
* `extract_dtype` embeds `_extract_dtype`, `to_pandas_schema_table` and
  `to_pandas_schema` embed `to_pandas_schema` (the inner per-table loop is
  factored out as `to_pandas_schema_table`);
* `escape_decode` embeds `codecs.escape_decode` (the CPython
  `PyBytes_DecodeEscape` algorithm on the UTF-8 encoding of the cell text);
* `read_table` embeds `read_table`: the `mdb-export` subprocess and
  `pd.read_csv` are external, so the function takes the scraped schema text
  and the parsed CSV columns (column name, list of cell strings) and models
  everything the source does around them, including the Python dynamic
  errors (`KeyError` from `schemas[table_name]` and `dtypes[column]`, the
  `NameError`/`UnboundLocalError` from the unassigned local `dtypes` when
  `converters_from_schema` is false, and `ValueError` from
  `codecs.escape_decode`).

Python strings are embedded as `List Char`; Python dicts as association
lists with Python's insertion-order update semantics (`dictInsert`,
`dictUpdate`, `lookupD`).  The regex character classes `\w` and `\s` are
modelled on their ASCII fragment, which covers all text the DDL scraper is
applied to.
-/

/-- ASCII fragment of the regex class `\w`: `[A-Za-z0-9_]`. -/
def isWordChar (c : Char) : Bool :=
  (65 ≤ c.toNat && c.toNat ≤ 90) || (97 ≤ c.toNat && c.toNat ≤ 122) ||
  (48 ≤ c.toNat && c.toNat ≤ 57) || c.toNat = 95

/-- ASCII fragment of Python whitespace (`\s`, `str.strip`): space, tab,
linefeed, carriage return, vertical tab, form feed. -/
def isPySpace (c : Char) : Bool :=
  c.toNat = 32 || c.toNat = 9 || c.toNat = 10 || c.toNat = 13 ||
  c.toNat = 11 || c.toNat = 12

/-- Line boundaries recognised by Python `str.splitlines`. -/
def isLineBreak (c : Char) : Bool :=
  c.toNat = 10 || c.toNat = 13 || c.toNat = 11 || c.toNat = 12 ||
  c.toNat = 28 || c.toNat = 29 || c.toNat = 30 || c.toNat = 133 ||
  c.toNat = 8232 || c.toNat = 8233

/-- Python `str.splitlines`, on character lists.  A trailing line break does
not produce a final empty line; `"\r\n"` counts as a single break. -/
def pySplitlinesCL : List Char → List (List Char)
  | [] => []
  | [c] => if isLineBreak c then [[]] else [[c]]
  | c :: c2 :: rest =>
    if c = '\r' ∧ c2 = '\n' then [] :: pySplitlinesCL rest
    else if isLineBreak c then [] :: pySplitlinesCL (c2 :: rest)
    else
      match pySplitlinesCL (c2 :: rest) with
      | [] => [[c]]
      | l :: ls => (c :: l) :: ls

/-- Python `str.strip` on character lists. -/
def pyStripCL (s : List Char) : List Char :=
  ((s.dropWhile isPySpace).reverse.dropWhile isPySpace).reverse

/-- Python `str.replace(",", "")` on character lists: removes every comma. -/
def removeCommas (s : List Char) : List Char :=
  s.filter (fun c => c ≠ ',')

/-- Dictionary lookup on an association list (Python `d[k]` / `k in d`). -/
def lookupD {α β : Type} [DecidableEq α] : List (α × β) → α → Option β
  | [], _ => none
  | p :: d, k => if p.1 = k then some p.2 else lookupD d k

/-- Python dict assignment `d[k] = v`: replaces the value in place if the
key is present (keeping its position), otherwise appends. -/
def dictInsert {α β : Type} [DecidableEq α] (k : α) (v : β) :
    List (α × β) → List (α × β)
  | [] => [(k, v)]
  | p :: d => if p.1 = k then (k, v) :: d else p :: dictInsert k v d

/-- Python `d.update(u)`: assigns every binding of `u` into `d` in order. -/
def dictUpdate {α β : Type} [DecidableEq α] (d u : List (α × β)) :
    List (α × β) :=
  u.foldl (fun acc p => dictInsert p.1 p.2 acc) d

/-- The numpy dtypes used by the module: `np.float_`, `np.int_`, `np.bool_`,
`np.str_`, `np.bytes_`. -/
inductive NpDtype
  | float
  | int
  | bool
  | str
  | bytes
deriving DecidableEq, Repr

/-- Embedding of `_extract_dtype`: lowercase the declared type string, then
match prefixes in the source's fixed order. -/
def extract_dtype (data_type : List Char) : Option NpDtype :=
  let d := data_type.map Char.toLower
  if "double".toList.isPrefixOf d then some NpDtype.float
  else if "long".toList.isPrefixOf d then some NpDtype.int
  else if "bool".toList.isPrefixOf d then some NpDtype.bool
  else if "text".toList.isPrefixOf d || "memo".toList.isPrefixOf d then
    some NpDtype.str
  else if "ole".toList.isPrefixOf d then some NpDtype.bytes
  else none

/-- The per-column step of `to_pandas_schema`'s inner loop, as the optional
typed-schema entry it contributes. -/
def tpsEntry (implicit_string : Bool) (p : List Char × List Char) :
    Option (List Char × NpDtype) :=
  match extract_dtype p.2 with
  | some dtype => some (p.1, dtype)
  | none => if implicit_string then some (p.1, NpDtype.str) else none

/-- Embedding of the inner loop of `to_pandas_schema` (the construction of
`sub_schema` for one table's definitions). -/
def to_pandas_schema_table (defs : List (List Char × List Char))
    (implicit_string : Bool) : List (List Char × NpDtype) :=
  defs.foldl
    (fun sub p =>
      match extract_dtype p.2 with
      | some dtype => dictInsert p.1 dtype sub
      | none =>
        if implicit_string then dictInsert p.1 NpDtype.str sub else sub)
    []

/-- Embedding of `to_pandas_schema`: the transient `pd_schema[tbl] = None`
assignment in the source is immediately overwritten by `sub_schema` at the
same position, so the net effect per table is a single dict assignment. -/
def to_pandas_schema (schema : List (List Char × List (List Char × List Char)))
    (implicit_string : Bool) :
    List (List Char × List (List Char × NpDtype)) :=
  schema.foldl
    (fun acc p => dictInsert p.1 (to_pandas_schema_table p.2 implicit_string) acc)
    []

/-- Matches a literal character sequence at the head of the input, returning
the remainder on success. -/
def dropLit : List Char → List Char → Option (List Char)
  | [], s => some s
  | _ :: _, [] => none
  | c :: p, d :: s => if c = d then dropLit p s else none

/-- The lazy tail `(.*?\));` of `TABLE_RE`: scans for the first `)`
immediately followed by `;`, returning the consumed text (including that
`)`) and the remainder after the `;`. -/
def findCloseSemi : List Char → Option (List Char × List Char)
  | [] => none
  | c :: rest =>
    if c = ')' ∧ rest.head? = some ';' then some ([')'], rest.tail)
    else
      match findCloseSemi rest with
      | some (b, r) => some (c :: b, r)
      | none => none

/-- One match attempt of `TABLE_RE` at the current position: the literal
`CREATE TABLE [`, a nonempty run of word characters (group 1), `]`, a
nonempty whitespace run, `(`, then the lazy scan to the first `);`
(group 2 keeps the closing parenthesis, as in the source pattern
`\((.*?\));`).  Returns (group 1, group 2, remainder). -/
def matchTableAt (s : List Char) : Option (List Char × List Char × List Char) :=
  match dropLit "CREATE TABLE [".toList s with
  | none => none
  | some s1 =>
    let name := s1.takeWhile isWordChar
    if name.isEmpty then none
    else
      match s1.dropWhile isWordChar with
      | ']' :: s3 =>
        if (s3.takeWhile isPySpace).isEmpty then none
        else
          match s3.dropWhile isPySpace with
          | '(' :: s5 =>
            match findCloseSemi s5 with
            | some (b, r) => some (name, b, r)
            | none => none
          | _ => none
      | _ => none

/-- Fuelled scanning loop of `TABLE_RE.findall`: try a match at every
position, emitting group pairs left to right and resuming after each
match.  One unit of fuel is spent per position tried, so fuel equal to the
input length always suffices. -/
def findTablesGo : Nat → List Char → List (List Char × List Char)
  | 0, _ => []
  | _ + 1, [] => []
  | fuel + 1, c :: rest =>
    match matchTableAt (c :: rest) with
    | some (n, b, r) => (n, b) :: findTablesGo fuel r
    | none => findTablesGo fuel rest

/-- Embedding of `TABLE_RE.findall`. -/
def findTables (s : List Char) : List (List Char × List Char) :=
  findTablesGo s.length s

/-- Embedding of `DEF_RE.match` on one line (`\s*\[(\w+)\]\s*(.*)$`):
leading whitespace, a bracketed nonempty word-character column name
(group 1), then the rest of the line after optional whitespace (group 2).
Returns `none` when the line does not have this shape. -/
def defLineMatch (line : List Char) : Option (List Char × List Char) :=
  match line.dropWhile isPySpace with
  | '[' :: s2 =>
    let name := s2.takeWhile isWordChar
    if name.isEmpty then none
    else
      match s2.dropWhile isWordChar with
      | ']' :: s4 => some (name, s4.dropWhile isPySpace)
      | _ => none
  | _ => none

/-- One iteration of the `_extract_defs` loop: on a matching line, assign
`defs[group1] = group2.replace(",", "").strip()`; otherwise skip. -/
def defsStep (d : List (List Char × List Char)) (line : List Char) :
    List (List Char × List Char) :=
  match defLineMatch line with
  | some (n, g2) => dictInsert n (pyStripCL (removeCommas g2)) d
  | none => d

/-- Embedding of `_extract_defs`. -/
def extract_defs (defs_str : List Char) : List (List Char × List Char) :=
  (pySplitlinesCL defs_str).foldl defsStep []

/-- The line filter of `read_schema`: `l and not l.startswith('-')`. -/
def keepLine : List Char → Bool
  | [] => false
  | c :: _ => c ≠ '-'

/-- Joining with `"\n"` (Python `"\n".join`). -/
def intercalateNL : List (List Char) → List Char
  | [] => []
  | [l] => l
  | l :: ls => l ++ '\n' :: intercalateNL ls

/-- The `schema_ddl` text built by `read_schema` from the decoded dump. -/
def filteredDDL (text : List Char) : List Char :=
  intercalateNL ((pySplitlinesCL text).filter keepLine)

/-- Embedding of `read_schema` on the decoded output text of the external
schema-dump command (the subprocess and byte decoding are external). -/
def read_schema (text : List Char) :
    List (List Char × List (List Char × List Char)) :=
  (findTables (filteredDDL text)).foldl
    (fun sch p => dictInsert p.1 (extract_defs p.2) sch) []

/-- Octal digit test for the escape decoder. -/
def isOctalDigit (c : Char) : Bool :=
  48 ≤ c.toNat && c.toNat ≤ 55

/-- Hex digit test for the escape decoder. -/
def isHexDigit (c : Char) : Bool :=
  (48 ≤ c.toNat && c.toNat ≤ 57) || (97 ≤ c.toNat && c.toNat ≤ 102) ||
  (65 ≤ c.toNat && c.toNat ≤ 70)

/-- Value of an octal digit character. -/
def octVal (c : Char) : Nat := c.toNat - 48

/-- Value of a hex digit character. -/
def hexVal (c : Char) : Nat :=
  if c.toNat ≤ 57 then c.toNat - 48
  else if 97 ≤ c.toNat then c.toNat - 87
  else c.toNat - 55

/-- UTF-8 encoding of one character, as the byte values CPython works on
after encoding the `str` argument of `codecs.escape_decode`. -/
def utf8Bytes (c : Char) : List Nat :=
  let n := c.toNat
  if n < 128 then [n]
  else if n < 2048 then [192 + n / 64, 128 + n % 64]
  else if n < 65536 then
    [224 + n / 4096, 128 + (n / 64) % 64, 128 + n % 64]
  else
    [240 + n / 262144, 128 + (n / 4096) % 64, 128 + (n / 64) % 64,
     128 + n % 64]

/-- Decoder state of `codecs.escape_decode` (CPython
`PyBytes_DecodeEscape`), which scans the input once: `plain` is the main
loop, `esc` follows a backslash, `oct v k` is collecting octal digits
(`v` the value so far, `k` how many further digits are accepted), `hex0`
and `hex1 v` expect the two digits of `\xhh`, and `err` records that a
`ValueError` was raised. -/
inductive EscSt
  | plain
  | esc
  | oct (v : Nat) (k : Nat)
  | hex0
  | hex1 (v : Nat)
  | err
deriving DecidableEq, Repr

/-- One character step of `PyBytes_DecodeEscape`: returns the next state
and the bytes emitted by this character.  Ordinary characters contribute
their UTF-8 bytes; after a backslash, `\newline` vanishes, the standard
single-character escapes emit their byte, an octal digit starts octal
collection (at most three digits, value truncated to a byte and flushed
when the run ends), `x` starts a two-hex-digit escape (a `ValueError`
otherwise), and an unrecognised escape emits the backslash followed by the
character itself. -/
def escStep : EscSt → Char → EscSt × List Nat
  | .plain, c => if c = '\\' then (.esc, []) else (.plain, utf8Bytes c)
  | .esc, c =>
    if c = '\n' then (.plain, [])
    else if c = '\\' then (.plain, [92])
    else if c = '\'' then (.plain, [39])
    else if c = '"' then (.plain, [34])
    else if c = 'b' then (.plain, [8])
    else if c = 'f' then (.plain, [12])
    else if c = 't' then (.plain, [9])
    else if c = 'n' then (.plain, [10])
    else if c = 'r' then (.plain, [13])
    else if c = 'v' then (.plain, [11])
    else if c = 'a' then (.plain, [7])
    else if isOctalDigit c then (.oct (octVal c) 2, [])
    else if c = 'x' then (.hex0, [])
    else (.plain, 92 :: utf8Bytes c)
  | .oct v k, c =>
    if isOctalDigit c ∧ k ≠ 0 then (.oct (v * 8 + octVal c) (k - 1), [])
    else if c = '\\' then (.esc, [v % 256])
    else (.plain, v % 256 :: utf8Bytes c)
  | .hex0, c => if isHexDigit c then (.hex1 (hexVal c), []) else (.err, [])
  | .hex1 v, c =>
    if isHexDigit c then (.plain, [v * 16 + hexVal c]) else (.err, [])
  | .err, _ => (.err, [])

/-- End-of-input behaviour of `PyBytes_DecodeEscape`: a pending octal run
flushes its byte; a trailing backslash or a truncated or invalid `\x`
escape is a `ValueError`. -/
def escFin : EscSt → Option (List Nat)
  | .plain => some []
  | .esc => none
  | .oct v _ => some [v % 256]
  | .hex0 => none
  | .hex1 _ => none
  | .err => none

/-- The scan loop of `PyBytes_DecodeEscape` from a given state. -/
def escDecGo (st : EscSt) : List Char → Option (List Nat)
  | [] => escFin st
  | c :: rest =>
    (escDecGo (escStep st c).1 rest).map (fun bs => (escStep st c).2 ++ bs)

/-- Embedding of `codecs.escape_decode` on the character list of the cell
text (CPython works on the UTF-8 encoding of the `str` argument).  `none`
models the `ValueError` cases. -/
def escape_decode (l : List Char) : Option (List Nat) :=
  escDecGo EscSt.plain l

/-- Sequences an optional function over a list, failing at the first
failure, like mapping a raising function over a pandas column. -/
def mapOption {α β : Type} (f : α → Option β) : List α → Option (List β)
  | [] => some []
  | a :: l =>
    match f a with
    | none => none
    | some b => (mapOption f l).map (fun bs => b :: bs)

/-- The Python exceptions `read_table` can surface in the embedded logic.
`schemaLookupError` is modelled from the spec: the spec's error taxonomy
names a `SchemaLookupError` for a table missing from the scraped schema,
but the source defines no such class; the constructor only exists so the
spec's claimed behaviour can be compared with the source's. -/
inductive PyErr
  | keyError (key : List Char)
  | nameError (missing : List Char)
  | valueError (msg : List Char)
  | schemaLookupError (table : List Char)
deriving DecidableEq, Repr

/-- A cell of the resulting frame: text from the CSV, or raw bytes after
the binary post-pass. -/
inductive CellData
  | text (s : List Char)
  | bytes (b : List Nat)
deriving DecidableEq, Repr

/-- The post-CSV loop of `read_table`: for each column of the parsed frame
in order, look up `dtypes[column]` (a missing key raises `KeyError`), and
map `codecs.escape_decode` over the cells of columns typed `np.bytes_`. -/
def postPass (dtypes : List (List Char × NpDtype)) :
    List (List Char × List (List Char)) →
    Except PyErr (List (List Char × List CellData))
  | [] => .ok []
  | (column, cells) :: rest =>
    match lookupD dtypes column with
    | none => .error (.keyError column)
    | some dt =>
      if dt = NpDtype.bytes then
        match mapOption escape_decode cells with
        | none => .error (.valueError [])
        | some bss =>
          (postPass dtypes rest).map
            (fun r => (column, bss.map CellData.bytes) :: r)
      else
        (postPass dtypes rest).map
          (fun r => (column, cells.map CellData.text) :: r)

/-- Embedding of `read_table`.  The external pieces are inputs: the decoded
output text of the schema-dump command (`schema_text`) and the parsed CSV
columns produced by `pd.read_csv` from the export pipe (`df`, in column
order, cells as text).  When `converters_from_schema` is true the source
evaluates `schemas[table_name]` (a `KeyError` when the table is absent,
since dict indexing raises), merges caller `dtype` overrides, and runs the
byte post-pass; when it is false the local `dtypes` is never assigned, so
the first loop iteration of the post-pass raises
`NameError`/`UnboundLocalError` (with no columns the loop body never
runs). -/
def read_table (schema_text table_name : List Char)
    (converters_from_schema : Bool)
    (specified_dtypes : List (List Char × NpDtype)) (implicit_string : Bool)
    (df : List (List Char × List (List Char))) :
    Except PyErr (List (List Char × List CellData)) :=
  if converters_from_schema then
    match lookupD (to_pandas_schema (read_schema schema_text) implicit_string)
        table_name with
    | none => .error (.keyError table_name)
    | some d => postPass (dictUpdate d specified_dtypes) df
  else
    match df with
    | [] => .ok []
    | _ :: _ => .error (.nameError "dtypes".toList)

/-- The `dtype` keyword argument `read_table` hands to `pd.read_csv` when
`converters_from_schema` is true: the schema-inferred hints overlaid with
the caller's `dtype` overrides, passed only when non-empty (`if dtypes !=
\x7b\x7d`). -/
def read_table_dtype_kwarg (schema_text table_name : List Char)
    (specified_dtypes : List (List Char × NpDtype))
    (implicit_string : Bool) :
    Except PyErr (Option (List (List Char × NpDtype))) :=
  match lookupD (to_pandas_schema (read_schema schema_text) implicit_string)
      table_name with
  | none => .error (.keyError table_name)
  | some d =>
    let dtypes := dictUpdate d specified_dtypes
    .ok (if dtypes = [] then none else some dtypes)

/-- Modelled from the spec: the external export command's octal escaping of
one byte (`mdb-export -b octal`).  Printable ASCII other than the backslash
passes through; every other byte is exported as a backslash followed by
three octal digits, which is what the spec's round-trip property
(escape-decode undoes the export tool's octal escaping) requires. -/
def octalEscapeByte (b : Nat) : List Char :=
  if 32 ≤ b ∧ b < 127 ∧ b ≠ 92 then [Char.ofNat b]
  else
    ['\\', Char.ofNat (48 + b / 64 % 8), Char.ofNat (48 + b / 8 % 8),
     Char.ofNat (48 + b % 8)]

/-- Modelled from the spec: octal escaping of a byte string by the export
tool. -/
def octal_escape (bs : List Nat) : List Char :=
  bs.flatMap octalEscapeByte

instance {ε α : Type} [DecidableEq ε] [DecidableEq α] :
    DecidableEq (Except ε α) := fun x y =>
  match x, y with
  | .ok a, .ok b =>
    if h : a = b then .isTrue (by rw [h]) else .isFalse (by simp [h])
  | .error a, .error b =>
    if h : a = b then .isTrue (by rw [h]) else .isFalse (by simp [h])
  | .ok _, .error _ => .isFalse (by simp)
  | .error _, .ok _ => .isFalse (by simp)

/-- The physical line of one column definition in a canonical schema dump:
a tab, the bracketed column name, a tab, the declared type. -/
def defColLineCL (p : List Char × List Char) : List Char :=
  '\t' :: '[' :: (p.1 ++ ']' :: '\t' :: p.2)

/-- Joining column-definition lines with `",\n"`, as in the dump format
(every definition but the last ends with a comma). -/
def intercalateCNL : List (List Char) → List Char
  | [] => []
  | [l] => l
  | l :: ls => l ++ ',' :: '\n' :: intercalateCNL ls

/-- The column-definition region of one canonical `CREATE TABLE` block. -/
def renderColsCL (cols : List (List Char × List Char)) : List Char :=
  intercalateCNL (cols.map defColLineCL)

/-- One canonical well-formed `CREATE TABLE [T] (defs);` block, in the
external schema-dump command's output format. -/
def renderBlockCL (t : List Char) (cols : List (List Char × List Char)) :
    List Char :=
  "CREATE TABLE [".toList ++ t ++ [']', '\n', ' ', '(', '\n'] ++
    renderColsCL cols ++ ['\n', ')', ';']

/-- A canonical schema dump: well-formed blocks joined by newlines. -/
def renderSchemaCL (blocks : List (List Char × List (List Char × List Char))) :
    List Char :=
  intercalateNL (blocks.map (fun b => renderBlockCL b.1 b.2))

/-- Group 2 of `TABLE_RE` on a canonical block: the text between the
opening parenthesis and the `;`, closing parenthesis included. -/
def bodyCL (cols : List (List Char × List Char)) : List Char :=
  '\n' :: renderColsCL cols ++ ['\n', ')']

/-- The lines `_extract_defs` sees for the column region of a canonical
block (trailing comma on all but the last definition). -/
def linesOf : List (List Char × List Char) → List (List Char)
  | [] => []
  | [p] => [defColLineCL p]
  | p :: rest => (defColLineCL p ++ [',']) :: linesOf rest

/-- A usable table or column name: nonempty, word characters only. -/
abbrev WordName (n : List Char) : Prop :=
  n ≠ [] ∧ ∀ c ∈ n, isWordChar c = true

/-- A declared-type string that keeps a canonical dump well formed: free of
line breaks and of semicolons. -/
abbrev CleanType (ty : List Char) : Prop :=
  ∀ c ∈ ty, isLineBreak c = false ∧ c ≠ ';'

/-- Well-formedness of one canonical block: a word-character table name, at
least one column, word-character column names, clean type strings, and
distinct column names. -/
abbrev GoodBlock (b : List Char × List (List Char × List Char)) : Prop :=
  WordName b.1 ∧ b.2 ≠ [] ∧ (∀ p ∈ b.2, WordName p.1 ∧ CleanType p.2) ∧
    (b.2.map Prod.fst).Nodup

/-- Well-formedness of a canonical schema dump: every block well formed and
table names distinct. -/
abbrev GoodBlocks (blocks : List (List Char × List (List Char × List Char))) :
    Prop :=
  (∀ b ∈ blocks, GoodBlock b) ∧ (blocks.map Prod.fst).Nodup

/-- The Schema the scraper is expected to produce from a canonical dump:
each block's columns in order, each type with commas removed and
whitespace stripped. -/
def expectedSchema (blocks : List (List Char × List (List Char × List Char))) :
    List (List Char × List (List Char × List Char)) :=
  blocks.map
    (fun b => (b.1, b.2.map (fun p => (p.1, pyStripCL (removeCommas p.2)))))

theorem takeWhile_all_append {p : Char → Bool} {l : List Char} (d : Char)
    (r : List Char) (hl : ∀ c ∈ l, p c = true) (hd : p d = false) :
    (l ++ d :: r).takeWhile p = l := by
  induction l with
  | nil => simp [List.takeWhile_cons, hd]
  | cons c l ih =>
    have hc : p c = true := hl c (by simp)
    simp only [List.cons_append, List.takeWhile_cons, hc, if_true]
    rw [ih (fun x hx => hl x (by simp [hx]))]

theorem dropWhile_all_append {p : Char → Bool} {l : List Char} (d : Char)
    (r : List Char) (hl : ∀ c ∈ l, p c = true) (hd : p d = false) :
    (l ++ d :: r).dropWhile p = d :: r := by
  induction l with
  | nil => simp [List.dropWhile_cons, hd]
  | cons c l ih =>
    have hc : p c = true := hl c (by simp)
    simp only [List.cons_append, List.dropWhile_cons, hc, if_true]
    exact ih (fun x hx => hl x (by simp [hx]))

theorem dropLit_append (p s : List Char) : dropLit p (p ++ s) = some s := by
  induction p with
  | nil => rfl
  | cons c p ih => simp [dropLit, ih]

theorem findCloseSemi_append {l : List Char} (hl : ∀ c ∈ l, c ≠ ';')
    (r : List Char) :
    findCloseSemi (l ++ ')' :: ';' :: r) = some (l ++ [')'], r) := by
  induction l with
  | nil => simp [findCloseSemi]
  | cons c l ih =>
    have hhead : (l ++ ')' :: ';' :: r).head? ≠ some ';' := by
      cases l with
      | nil => simp
      | cons x xs =>
        have : x ≠ ';' := hl x (by simp)
        simp [this]
    simp only [List.cons_append, findCloseSemi]
    rw [if_neg (by intro h; exact hhead h.2)]
    simp only [List.append_eq]
    rw [ih (fun x hx => hl x (by simp [hx]))]

theorem lookupD_dictInsert {α β : Type} [DecidableEq α] (k k' : α) (v : β)
    (d : List (α × β)) :
    lookupD (dictInsert k v d) k' = if k = k' then some v else lookupD d k' := by
  induction d with
  | nil => simp [dictInsert, lookupD]
  | cons p d ih =>
    by_cases hp : p.1 = k
    · simp only [dictInsert, hp, if_true]
      by_cases hk : k = k'
      · simp [lookupD, hk]
      · have : p.1 ≠ k' := by rw [hp]; exact hk
        simp [lookupD, hk, this]
    · simp only [dictInsert, hp, if_false]
      by_cases hk : p.1 = k'
      · have : k ≠ k' := by rw [← hk]; intro h; exact hp h.symm
        simp [lookupD, hk, this]
      · simp [lookupD, hk, ih]

theorem lookupD_eq_none {α β : Type} [DecidableEq α] (d : List (α × β))
    (k : α) (h : k ∉ d.map Prod.fst) : lookupD d k = none := by
  induction d with
  | nil => rfl
  | cons p d ih =>
    simp only [List.map_cons, List.mem_cons] at h
    push_neg at h
    have h1 : ¬p.1 = k := fun hh => h.1 hh.symm
    simp [lookupD, h1, ih h.2]

theorem lookupD_mem {α β : Type} [DecidableEq α] {d : List (α × β)} {k : α}
    {v : β} (h : lookupD d k = some v) : k ∈ d.map Prod.fst := by
  induction d with
  | nil => simp [lookupD] at h
  | cons p d ih =>
    simp only [lookupD] at h
    by_cases hp : p.1 = k
    · simp [hp]
    · simp only [hp, if_false] at h
      simp [ih h]

theorem lookupD_of_mem_nodup {α β : Type} [DecidableEq α]
    {d : List (α × β)} {k : α} {v : β} (hmem : (k, v) ∈ d)
    (hnd : (d.map Prod.fst).Nodup) : lookupD d k = some v := by
  induction d with
  | nil => simp at hmem
  | cons p d ih =>
    simp only [List.map_cons, List.nodup_cons] at hnd
    rcases List.mem_cons.mp hmem with h | h
    · rw [← h]; simp [lookupD]
    · have hk : k ∈ d.map Prod.fst := by
        exact List.mem_map.mpr ⟨(k, v), h, rfl⟩
      have hp : p.1 ≠ k := fun hh => hnd.1 (hh ▸ hk)
      simp [lookupD, hp, ih h hnd.2]

theorem dictInsert_of_not_mem {α β : Type} [DecidableEq α] {d : List (α × β)}
    {k : α} (v : β) (h : k ∉ d.map Prod.fst) :
    dictInsert k v d = d ++ [(k, v)] := by
  induction d with
  | nil => rfl
  | cons p d ih =>
    simp only [List.map_cons, List.mem_cons] at h
    push_neg at h
    have h1 : ¬p.1 = k := fun hh => h.1 hh.symm
    simp [dictInsert, h1, ih h.2]

theorem foldl_dictInsert_append {α β : Type} [DecidableEq α]
    (l : List (α × β)) (acc : List (α × β))
    (hdisj : ∀ k ∈ l.map Prod.fst, k ∉ acc.map Prod.fst)
    (hnd : (l.map Prod.fst).Nodup) :
    l.foldl (fun d p => dictInsert p.1 p.2 d) acc = acc ++ l := by
  induction l generalizing acc with
  | nil => simp
  | cons p l ih =>
    simp only [List.map_cons, List.nodup_cons] at hnd
    have hp : p.1 ∉ acc.map Prod.fst := hdisj p.1 (by simp)
    simp only [List.foldl_cons]
    rw [dictInsert_of_not_mem p.2 hp]
    rw [ih (acc ++ [(p.1, p.2)]) ?_ hnd.2]
    · simp
    · intro k hk
      simp only [List.map_append, List.mem_append] at *
      push_neg
      constructor
      · exact hdisj k (by simp [hk])
      · intro hkk
        simp at hkk
        exact hnd.1 (hkk ▸ hk)

theorem foldl_filterMap {α β γ : Type} (g : β → Option γ) (f : α → γ → α)
    (l : List β) (acc : α) :
    (l.filterMap g).foldl f acc =
      l.foldl (fun a b => match g b with | some x => f a x | none => a) acc := by
  induction l generalizing acc with
  | nil => rfl
  | cons b l ih =>
    cases hg : g b with
    | none => simp [List.filterMap_cons, hg, ih]
    | some x => simp [List.filterMap_cons, hg, ih]

theorem lookupD_dictUpdate {α β : Type} [DecidableEq α]
    (d u : List (α × β)) (k : α) (hnd : (u.map Prod.fst).Nodup) :
    lookupD (dictUpdate d u) k =
      match lookupD u k with
      | some v => some v
      | none => lookupD d k := by
  induction u generalizing d with
  | nil => simp [dictUpdate, lookupD]
  | cons p u ih =>
    simp only [List.map_cons, List.nodup_cons] at hnd
    have step : dictUpdate d (p :: u) = dictUpdate (dictInsert p.1 p.2 d) u := by
      simp [dictUpdate]
    rw [step, ih _ hnd.2]
    by_cases hk : p.1 = k
    · have hu : lookupD u k = none := by
        apply lookupD_eq_none
        rw [← hk]
        exact hnd.1
      simp [hu, lookupD, hk, lookupD_dictInsert]
    · simp only [lookupD, hk, if_false]
      cases hu : lookupD u k with
      | some v => simp
      | none => simp [lookupD_dictInsert, hk]

theorem lookupD_map_snd {α β γ : Type} [DecidableEq α] (g : β → γ)
    (d : List (α × β)) (k : α) :
    lookupD (d.map (fun p => (p.1, g p.2))) k = (lookupD d k).map g := by
  induction d with
  | nil => rfl
  | cons p d ih =>
    by_cases hk : p.1 = k
    · simp [lookupD, hk]
    · simp [lookupD, hk, ih]

theorem tpsEntry_key {implicit_string : Bool} {p : List Char × List Char}
    {x : List Char × NpDtype} (hx : tpsEntry implicit_string p = some x) :
    x.1 = p.1 := by
  simp only [tpsEntry] at hx
  cases hex : extract_dtype p.2 with
  | some dt =>
    rw [hex] at hx
    injection hx with hx
    cases hx
    rfl
  | none =>
    rw [hex] at hx
    by_cases his : implicit_string = true
    · rw [if_pos his] at hx
      injection hx with hx
      cases hx
      rfl
    · rw [if_neg his] at hx
      cases hx

theorem tpsEntry_keys_sublist (implicit_string : Bool)
    (l : List (List Char × List Char)) :
    ((l.filterMap (tpsEntry implicit_string)).map Prod.fst).Sublist
      (l.map Prod.fst) := by
  induction l with
  | nil => simp
  | cons p l ihl =>
    cases he : tpsEntry implicit_string p with
    | none => simp only [List.filterMap_cons, he, List.map_cons]; exact ihl.cons _
    | some x =>
      simp only [List.filterMap_cons, he, List.map_cons]
      rw [tpsEntry_key he]
      exact ihl.cons₂ _

theorem to_pandas_schema_table_eq_filterMap
    (defs : List (List Char × List Char)) (implicit_string : Bool)
    (hnd : (defs.map Prod.fst).Nodup) :
    to_pandas_schema_table defs implicit_string =
      defs.filterMap (tpsEntry implicit_string) := by
  have main : ∀ (l : List (List Char × List Char)) (acc : _),
      (∀ k ∈ (l.filterMap (tpsEntry implicit_string)).map Prod.fst,
        k ∉ acc.map Prod.fst) →
      ((l.filterMap (tpsEntry implicit_string)).map Prod.fst).Nodup →
      l.foldl
        (fun sub p =>
          match extract_dtype p.2 with
          | some dtype => dictInsert p.1 dtype sub
          | none =>
            if implicit_string then dictInsert p.1 NpDtype.str sub else sub)
        acc = acc ++ l.filterMap (tpsEntry implicit_string) := by
    intro l
    induction l with
    | nil => intro acc _ _; simp
    | cons p l ihl =>
      intro acc hdisj hnd2
      simp only [List.foldl_cons]
      have hstep : (match extract_dtype p.2 with
          | some dtype => dictInsert p.1 dtype acc
          | none =>
            if implicit_string then dictInsert p.1 NpDtype.str acc else acc) =
          (match tpsEntry implicit_string p with
          | some x => dictInsert x.1 x.2 acc
          | none => acc) := by
        simp only [tpsEntry]
        cases extract_dtype p.2 with
        | some dt => rfl
        | none => cases implicit_string <;> rfl
      rw [hstep]
      cases he : tpsEntry implicit_string p with
      | none =>
        simp only [List.filterMap_cons, he] at hdisj hnd2 ⊢
        exact ihl acc hdisj hnd2
      | some x =>
        simp only [List.filterMap_cons, he, List.map_cons, List.nodup_cons]
          at hdisj hnd2 ⊢
        rw [dictInsert_of_not_mem x.2 (hdisj x.1 (List.mem_cons_self _ _))]
        rw [ihl (acc ++ [(x.1, x.2)]) ?_ hnd2.2]
        · simp
        · intro k hk
          simp only [List.map_append, List.mem_append]
          push_neg
          refine ⟨hdisj k (List.mem_cons_of_mem _ hk), ?_⟩
          intro hkk
          simp only [List.map_cons, List.map_nil, List.mem_singleton] at hkk
          exact hnd2.1 (hkk ▸ hk)
  have h := main defs [] (fun k _ => List.not_mem_nil k)
    ((tpsEntry_keys_sublist implicit_string defs).nodup hnd)
  simpa only [List.nil_append] using h

theorem foldl_dictInsert_map {α β γ : Type} [DecidableEq α] (g : β → γ)
    (l : List (α × β)) (acc : List (α × γ))
    (hdisj : ∀ k ∈ l.map Prod.fst, k ∉ acc.map Prod.fst)
    (hnd : (l.map Prod.fst).Nodup) :
    l.foldl (fun d p => dictInsert p.1 (g p.2) d) acc =
      acc ++ l.map (fun p => (p.1, g p.2)) := by
  induction l generalizing acc with
  | nil => simp
  | cons p l ih =>
    simp only [List.map_cons, List.nodup_cons] at hnd
    simp only [List.foldl_cons]
    rw [dictInsert_of_not_mem (g p.2) (hdisj p.1 (by simp))]
    rw [ih (acc ++ [(p.1, g p.2)]) ?_ hnd.2]
    · simp
    · intro k hk
      simp only [List.map_append, List.mem_append]
      push_neg
      refine ⟨hdisj k (by simp [hk]), ?_⟩
      intro hkk
      simp only [List.map_cons, List.map_nil, List.mem_singleton] at hkk
      exact hnd.1 (hkk ▸ hk)

theorem to_pandas_schema_eq_map
    (schema : List (List Char × List (List Char × List Char)))
    (implicit_string : Bool) (hnd : (schema.map Prod.fst).Nodup) :
    to_pandas_schema schema implicit_string =
      schema.map (fun p => (p.1, to_pandas_schema_table p.2 implicit_string)) := by
  have h := foldl_dictInsert_map
    (fun defs => to_pandas_schema_table defs implicit_string) schema []
    (fun k _ => List.not_mem_nil k) hnd
  simpa only [List.nil_append] using h

theorem to_pandas_schema_lookup_none
    (schema : List (List Char × List (List Char × List Char)))
    (implicit_string : Bool) (t : List Char)
    (h : lookupD schema t = none) :
    lookupD (to_pandas_schema schema implicit_string) t = none := by
  have main : ∀ (l : List (List Char × List (List Char × List Char)))
      (acc : List (List Char × List (List Char × NpDtype))),
      lookupD l t = none → lookupD acc t = none →
      lookupD
        (l.foldl
          (fun a p =>
            dictInsert p.1 (to_pandas_schema_table p.2 implicit_string) a)
          acc) t = none := by
    intro l
    induction l with
    | nil => intro acc _ hacc; exact hacc
    | cons p l ih =>
      intro acc hl hacc
      simp only [lookupD] at hl
      by_cases hp : p.1 = t
      · simp [hp] at hl
      · simp only [hp, if_false] at hl
        simp only [List.foldl_cons]
        apply ih _ hl
        rw [lookupD_dictInsert]
        simp [hp, hacc]
  exact main schema [] h rfl

theorem wordChar_ne_semi {c : Char} (h : isWordChar c = true) : c ≠ ';' := by
  intro hc
  subst hc
  exact absurd h (by decide)

theorem wordChar_not_break {c : Char} (h : isWordChar c = true) :
    isLineBreak c = false := by
  simp only [isWordChar, Bool.or_eq_true, Bool.and_eq_true, decide_eq_true_eq]
    at h
  simp only [isLineBreak, Bool.or_eq_false_iff, decide_eq_false_iff_not]
  omega

theorem wordChar_not_space {c : Char} (h : isWordChar c = true) :
    isPySpace c = false := by
  simp only [isWordChar, Bool.or_eq_true, Bool.and_eq_true, decide_eq_true_eq]
    at h
  simp only [isPySpace, Bool.or_eq_false_iff, decide_eq_false_iff_not]
  omega

theorem renderColsCL_ne_semi {cols : List (List Char × List Char)}
    (h : ∀ p ∈ cols, WordName p.1 ∧ CleanType p.2) :
    ∀ c ∈ renderColsCL cols, c ≠ ';' := by
  have line : ∀ p ∈ cols, ∀ c ∈ defColLineCL p, c ≠ ';' := by
    intro p hp c hc
    simp only [defColLineCL, List.mem_cons, List.mem_append] at hc
    rcases hc with h1 | h1
    · subst h1; decide
    rcases h1 with h1 | h1
    · subst h1; decide
    rcases h1 with h1 | h1
    · exact wordChar_ne_semi ((h p hp).1.2 c h1)
    rcases h1 with h1 | h1
    · subst h1; decide
    rcases h1 with h1 | h1
    · subst h1; decide
    · exact ((h p hp).2 c h1).2
  rw [renderColsCL]
  induction cols with
  | nil => simp [intercalateCNL]
  | cons p cols ih =>
    intro c hc
    cases cols with
    | nil =>
      simp only [List.map_cons, List.map_nil, intercalateCNL] at hc
      exact line p (by simp) c hc
    | cons q cols2 =>
      simp only [List.map_cons, intercalateCNL, List.mem_append,
        List.mem_cons] at hc
      rcases hc with h1 | h1
      · exact line p (by simp) c h1
      rcases h1 with h1 | h1
      · subst h1; decide
      rcases h1 with h1 | h1
      · subst h1; decide
      · have := ih (fun q hq => h q (List.mem_cons_of_mem _ hq))
          (fun q hq cc hcc => line q (List.mem_cons_of_mem _ hq) cc hcc) c
        apply this
        simpa [intercalateCNL] using h1

theorem isEmpty_false_of_ne_nil {t : List Char} (h : t ≠ []) :
    t.isEmpty = false := by
  cases t with
  | nil => exact absurd rfl h
  | cons c l => rfl

theorem matchTableAt_render (t : List Char)
    (cols : List (List Char × List Char)) (rest : List Char)
    (ht : WordName t)
    (hcols : ∀ p ∈ cols, WordName p.1 ∧ CleanType p.2) :
    matchTableAt (renderBlockCL t cols ++ rest) =
      some (t, bodyCL cols, rest) := by
  have hshape : renderBlockCL t cols ++ rest =
      "CREATE TABLE [".toList ++
        (t ++ (']' :: '\n' :: ' ' :: '(' ::
          (('\n' :: (renderColsCL cols ++ ['\n'])) ++ ')' :: ';' :: rest))) := by
    simp [renderBlockCL, List.append_assoc]
  have hnosemi : ∀ c ∈ '\n' :: (renderColsCL cols ++ ['\n']), c ≠ ';' := by
    intro c hc
    simp only [List.mem_cons, List.mem_append, List.mem_singleton] at hc
    rcases hc with h1 | h1
    · subst h1; decide
    rcases h1 with h1 | h1
    · exact renderColsCL_ne_semi hcols c h1
    rcases h1 with h1 | h1
    · subst h1; decide
    · simp at h1
  have hsp1 : isPySpace '\n' = true := by decide
  have hsp2 : isPySpace ' ' = true := by decide
  have hsp3 : isPySpace '(' = false := by decide
  rw [hshape, matchTableAt, dropLit_append]
  simp only [takeWhile_all_append ']' _ ht.2 (by decide),
    dropWhile_all_append ']' _ ht.2 (by decide),
    isEmpty_false_of_ne_nil ht.1, List.takeWhile_cons, List.dropWhile_cons,
    hsp1, hsp2, hsp3, if_true, if_false, Bool.false_eq_true,
    List.isEmpty_cons, findCloseSemi_append hnosemi]
  refine congrArg some (congrArg (Prod.mk t) (congrArg (fun b => (b, rest)) ?_))
  simp [bodyCL, List.append_assoc]

theorem matchTableAt_newline (s : List Char) : matchTableAt ('\n' :: s) = none := rfl

theorem findTablesGo_nil (f : Nat) : findTablesGo f [] = [] := by
  cases f <;> rfl

theorem findTablesGo_succ (f : Nat) (s : List Char) (hs : s ≠ []) :
    findTablesGo (f + 1) s =
      match matchTableAt s with
      | some (n, b, r) => (n, b) :: findTablesGo f r
      | none => findTablesGo f s.tail := by
  cases s with
  | nil => exact absurd rfl hs
  | cons c rest => rfl

theorem renderBlockCL_length_pos (t : List Char)
    (cols : List (List Char × List Char)) :
    1 ≤ (renderBlockCL t cols).length := by
  simp [renderBlockCL]

theorem renderBlockCL_ne_nil (t : List Char)
    (cols : List (List Char × List Char)) : renderBlockCL t cols ≠ [] := by
  intro h
  have := renderBlockCL_length_pos t cols
  rw [h] at this
  simp at this

theorem findTablesGo_render
    (blocks : List (List Char × List (List Char × List Char)))
    (hg : ∀ b ∈ blocks, WordName b.1 ∧ ∀ p ∈ b.2, WordName p.1 ∧ CleanType p.2) :
    ∀ fuel : Nat, (renderSchemaCL blocks).length ≤ fuel →
    findTablesGo fuel (renderSchemaCL blocks) =
      blocks.map (fun b => (b.1, bodyCL b.2)) := by
  induction blocks with
  | nil =>
    intro fuel _
    show findTablesGo fuel [] = []
    exact findTablesGo_nil fuel
  | cons b bs ih =>
    intro fuel hfuel
    have hb := hg b (by simp)
    cases bs with
    | nil =>
      have hone : renderSchemaCL [b] = renderBlockCL b.1 b.2 := by
        simp [renderSchemaCL, intercalateNL]
      rw [hone] at hfuel ⊢
      have hpos := renderBlockCL_length_pos b.1 b.2
      cases fuel with
      | zero => omega
      | succ f =>
        rw [findTablesGo_succ f _ (renderBlockCL_ne_nil b.1 b.2)]
        have hm := matchTableAt_render b.1 b.2 [] hb.1 hb.2
        rw [List.append_nil] at hm
        rw [hm]
        simp [findTablesGo_nil]
    | cons b2 bs2 =>
      have htwo : renderSchemaCL (b :: b2 :: bs2) =
          renderBlockCL b.1 b.2 ++ '\n' :: renderSchemaCL (b2 :: bs2) := by
        simp [renderSchemaCL, intercalateNL]
      rw [htwo] at hfuel ⊢
      have hpos := renderBlockCL_length_pos b.1 b.2
      have hlen : (renderBlockCL b.1 b.2 ++ '\n' :: renderSchemaCL (b2 :: bs2)).length =
          (renderBlockCL b.1 b.2).length + 1 + (renderSchemaCL (b2 :: bs2)).length := by
        simp
        omega
      cases fuel with
      | zero => omega
      | succ f =>
        rw [findTablesGo_succ f _ (by
          intro hh
          have := congrArg List.length hh
          rw [hlen] at this
          simp at this)]
        rw [matchTableAt_render b.1 b.2 _ hb.1 hb.2]
        show (b.1, bodyCL b.2) ::
            findTablesGo f ('\n' :: renderSchemaCL (b2 :: bs2)) =
          List.map (fun b => (b.1, bodyCL b.2)) (b :: b2 :: bs2)
        cases f with
        | zero => omega
        | succ f2 =>
          rw [findTablesGo_succ f2 _ (by simp)]
          rw [matchTableAt_newline]
          show (b.1, bodyCL b.2) ::
              findTablesGo f2 (renderSchemaCL (b2 :: bs2)) =
            List.map (fun b => (b.1, bodyCL b.2)) (b :: b2 :: bs2)
          rw [ih (fun x hx => hg x (List.mem_cons_of_mem _ hx)) f2 (by omega)]
          simp

theorem pySplitlinesCL_newline (rest : List Char) :
    pySplitlinesCL ('\n' :: rest) = [] :: pySplitlinesCL rest := by
  cases rest with
  | nil => rfl
  | cons r rs =>
    rw [pySplitlinesCL]
    rw [if_neg (by intro h; exact absurd h.1 (by decide)), if_pos (by decide)]

theorem pySplitlinesCL_append_line {l : List Char}
    (hl : ∀ c ∈ l, isLineBreak c = false) (rest : List Char) :
    pySplitlinesCL (l ++ '\n' :: rest) = l :: pySplitlinesCL rest := by
  induction l with
  | nil => simpa using pySplitlinesCL_newline rest
  | cons a l ih =>
    have ha : isLineBreak a = false := hl a (by simp)
    have har : a ≠ '\r' := by
      intro h
      subst h
      exact absurd ha (by decide)
    cases l with
    | nil =>
      show pySplitlinesCL (a :: '\n' :: rest) = [a] :: pySplitlinesCL rest
      rw [pySplitlinesCL]
      rw [if_neg (fun h => har h.1), if_neg (by simp [ha])]
      rw [pySplitlinesCL_newline]
    | cons b l2 =>
      have hbl : pySplitlinesCL ((b :: l2) ++ '\n' :: rest) =
          (b :: l2) :: pySplitlinesCL rest :=
        ih (fun c hc => hl c (List.mem_cons_of_mem _ hc))
      simp only [List.cons_append] at hbl ⊢
      rw [pySplitlinesCL]
      rw [if_neg (fun h => har h.1), if_neg (by simp [ha]), hbl]

theorem pySplitlinesCL_single {l : List Char}
    (hl : ∀ c ∈ l, isLineBreak c = false) (hne : l ≠ []) :
    pySplitlinesCL l = [l] := by
  induction l with
  | nil => exact absurd rfl hne
  | cons a l ih =>
    have ha : isLineBreak a = false := hl a (by simp)
    have har : a ≠ '\r' := by
      intro h
      subst h
      exact absurd ha (by decide)
    cases l with
    | nil => simp [pySplitlinesCL, ha]
    | cons b l2 =>
      have hbl : pySplitlinesCL (b :: l2) = [b :: l2] :=
        ih (fun c hc => hl c (List.mem_cons_of_mem _ hc)) (by simp)
      rw [pySplitlinesCL]
      rw [if_neg (fun h => har h.1), if_neg (by simp [ha]), hbl]

theorem pySpace_ne_comma {c : Char} (h : isPySpace c = true) : c ≠ ',' := by
  intro hc
  subst hc
  exact absurd h (by decide)

theorem pyStripCL_cons_space {a : Char} (ha : isPySpace a = true)
    (l : List Char) : pyStripCL (a :: l) = pyStripCL l := by
  simp [pyStripCL, List.dropWhile_cons, ha]

theorem removeCommas_cons_of_ne {a : Char} (h : a ≠ ',') (l : List Char) :
    removeCommas (a :: l) = a :: removeCommas l := by
  simp [removeCommas, List.filter_cons, h]

theorem strip_rc_dropWhile (l : List Char) :
    pyStripCL (removeCommas (l.dropWhile isPySpace)) =
      pyStripCL (removeCommas l) := by
  induction l with
  | nil => rfl
  | cons a l ih =>
    by_cases ha : isPySpace a = true
    · rw [List.dropWhile_cons, if_pos ha, ih,
        removeCommas_cons_of_ne (pySpace_ne_comma ha),
        pyStripCL_cons_space ha]
    · rw [List.dropWhile_cons, if_neg ha]

theorem removeCommas_append (l1 l2 : List Char) :
    removeCommas (l1 ++ l2) = removeCommas l1 ++ removeCommas l2 := by
  simp [removeCommas, List.filter_append]

theorem defLineMatch_shape {sp1 name : List Char} (rest : List Char)
    (hsp : ∀ c ∈ sp1, isPySpace c = true) (hw : WordName name) :
    defLineMatch (sp1 ++ '[' :: (name ++ ']' :: rest)) =
      some (name, rest.dropWhile isPySpace) := by
  rw [defLineMatch]
  rw [dropWhile_all_append '[' _ hsp (by decide)]
  simp only [takeWhile_all_append ']' _ hw.2 (by decide),
    dropWhile_all_append ']' _ hw.2 (by decide),
    isEmpty_false_of_ne_nil hw.1, Bool.false_eq_true, if_false]

theorem defsStep_colLine (acc : List (List Char × List Char))
    (p : List Char × List Char) (hw : WordName p.1) (mc : List Char)
    (hmc : mc = [] ∨ mc = [',']) :
    defsStep acc (defColLineCL p ++ mc) =
      dictInsert p.1 (pyStripCL (removeCommas p.2)) acc := by
  have hshape : defColLineCL p ++ mc =
      ['\t'] ++ '[' :: (p.1 ++ ']' :: ('\t' :: (p.2 ++ mc))) := by
    simp [defColLineCL]
  rw [hshape, defsStep, defLineMatch_shape _ (by decide) hw]
  have hval : pyStripCL (removeCommas (('\t' :: (p.2 ++ mc)).dropWhile isPySpace)) =
      pyStripCL (removeCommas p.2) := by
    rw [strip_rc_dropWhile,
      removeCommas_cons_of_ne (by decide : ('\t' : Char) ≠ ','),
      pyStripCL_cons_space (by decide), removeCommas_append]
    have hmc2 : removeCommas mc = [] := by
      rcases hmc with h | h <;> subst h <;> rfl
    rw [hmc2, List.append_nil]
  show dictInsert p.1
      (pyStripCL (removeCommas (('\t' :: (p.2 ++ mc)).dropWhile isPySpace)))
      acc = dictInsert p.1 (pyStripCL (removeCommas p.2)) acc
  rw [hval]

theorem defsStep_skip (acc : List (List Char × List Char)) {line : List Char}
    (h : defLineMatch line = none) : defsStep acc line = acc := by
  rw [defsStep, h]

theorem defColLineCL_break_free {p : List Char × List Char}
    (hw : WordName p.1) (hc : CleanType p.2) :
    ∀ c ∈ defColLineCL p, isLineBreak c = false := by
  intro c hmem
  simp only [defColLineCL, List.mem_cons, List.mem_append] at hmem
  rcases hmem with h1 | h1
  · subst h1; decide
  rcases h1 with h1 | h1
  · subst h1; decide
  rcases h1 with h1 | h1
  · exact wordChar_not_break (hw.2 c h1)
  rcases h1 with h1 | h1
  · subst h1; decide
  rcases h1 with h1 | h1
  · subst h1; decide
  · exact (hc c h1).1

theorem splitlines_renderCols {cols : List (List Char × List Char)}
    (hne : cols ≠ []) (hcols : ∀ p ∈ cols, WordName p.1 ∧ CleanType p.2) :
    pySplitlinesCL (renderColsCL cols ++ '\n' :: [')']) =
      linesOf cols ++ [[')']] := by
  induction cols with
  | nil => exact absurd rfl hne
  | cons p cols ih =>
    have hp := hcols p (by simp)
    cases cols with
    | nil =>
      have h1 : renderColsCL [p] = defColLineCL p := by
        simp [renderColsCL, intercalateCNL]
      rw [h1, pySplitlinesCL_append_line (defColLineCL_break_free hp.1 hp.2)]
      rfl
    | cons q cols2 =>
      have h1 : renderColsCL (p :: q :: cols2) =
          (defColLineCL p ++ [',']) ++ '\n' :: renderColsCL (q :: cols2) := by
        simp [renderColsCL, intercalateCNL]
      rw [h1]
      have hbf : ∀ c ∈ defColLineCL p ++ [','], isLineBreak c = false := by
        intro c hc2
        simp only [List.mem_append, List.mem_singleton] at hc2
        rcases hc2 with h2 | h2
        · exact defColLineCL_break_free hp.1 hp.2 c h2
        · subst h2; decide
      have hassoc : (defColLineCL p ++ [',']) ++ '\n' ::
            renderColsCL (q :: cols2) ++ '\n' :: [')'] =
          (defColLineCL p ++ [',']) ++ '\n' ::
            (renderColsCL (q :: cols2) ++ '\n' :: [')']) := by
        simp
      rw [hassoc, pySplitlinesCL_append_line hbf]
      rw [ih (by simp) (fun x hx => hcols x (List.mem_cons_of_mem _ hx))]
      rfl

theorem foldl_defsStep_lines {cols : List (List Char × List Char)}
    (hcols : ∀ p ∈ cols, WordName p.1 ∧ CleanType p.2)
    (hnd : (cols.map Prod.fst).Nodup) :
    ∀ acc : List (List Char × List Char),
    (∀ k ∈ cols.map Prod.fst, k ∉ acc.map Prod.fst) →
    List.foldl defsStep acc (linesOf cols ++ [[')']]) =
      acc ++ cols.map (fun p => (p.1, pyStripCL (removeCommas p.2))) := by
  induction cols with
  | nil =>
    intro acc _
    simp only [linesOf, List.nil_append, List.foldl_cons, List.foldl_nil]
    rw [defsStep_skip acc (by rfl)]
    simp
  | cons p cols ih =>
    intro acc hdisj
    have hp := hcols p (by simp)
    simp only [List.map_cons, List.nodup_cons] at hnd
    have hins : dictInsert p.1 (pyStripCL (removeCommas p.2)) acc =
        acc ++ [(p.1, pyStripCL (removeCommas p.2))] :=
      dictInsert_of_not_mem _ (hdisj p.1 (by simp))
    have hdisj2 : ∀ k ∈ cols.map Prod.fst,
        k ∉ (acc ++ [(p.1, pyStripCL (removeCommas p.2))]).map Prod.fst := by
      intro k hk
      simp only [List.map_append, List.mem_append]
      push_neg
      refine ⟨hdisj k (by simp [hk]), ?_⟩
      intro hkk
      simp only [List.map_cons, List.map_nil, List.mem_singleton] at hkk
      exact hnd.1 (hkk ▸ hk)
    cases cols with
    | nil =>
      simp only [linesOf, List.cons_append, List.nil_append, List.foldl_cons,
        List.foldl_nil]
      have hline := defsStep_colLine acc p hp.1 [] (Or.inl rfl)
      rw [List.append_nil] at hline
      rw [hline, hins]
      rw [defsStep_skip _ (by rfl)]
      simp
    | cons q cols2 =>
      simp only [linesOf, List.cons_append, List.foldl_cons]
      rw [defsStep_colLine acc p hp.1 [','] (Or.inr rfl), hins]
      rw [ih (fun x hx => hcols x (List.mem_cons_of_mem _ hx)) hnd.2 _ hdisj2]
      simp

theorem extract_defs_body {cols : List (List Char × List Char)}
    (hne : cols ≠ []) (hcols : ∀ p ∈ cols, WordName p.1 ∧ CleanType p.2)
    (hnd : (cols.map Prod.fst).Nodup) :
    extract_defs (bodyCL cols) =
      cols.map (fun p => (p.1, pyStripCL (removeCommas p.2))) := by
  rw [extract_defs]
  have hbody : bodyCL cols = '\n' :: (renderColsCL cols ++ '\n' :: [')']) := by
    simp [bodyCL]
  rw [hbody, pySplitlinesCL_newline, splitlines_renderCols hne hcols]
  simp only [List.foldl_cons]
  rw [defsStep_skip [] (by rfl)]
  have := foldl_defsStep_lines hcols hnd [] (fun k _ => List.not_mem_nil k)
  simpa using this

theorem foldl_schema_blocks
    {blocks : List (List Char × List (List Char × List Char))}
    (hall : ∀ b ∈ blocks, GoodBlock b)
    (hnd : (blocks.map Prod.fst).Nodup) :
    ∀ acc : List (List Char × List (List Char × List Char)),
    (∀ k ∈ blocks.map Prod.fst, k ∉ acc.map Prod.fst) →
    List.foldl (fun sch p => dictInsert p.1 (extract_defs p.2) sch) acc
        (blocks.map (fun b => (b.1, bodyCL b.2))) =
      acc ++ expectedSchema blocks := by
  induction blocks with
  | nil => intro acc _; simp [expectedSchema]
  | cons b blocks ih =>
    intro acc hdisj
    have hb := hall b (by simp)
    simp only [List.map_cons, List.nodup_cons] at hnd
    simp only [List.map_cons, List.foldl_cons]
    rw [extract_defs_body hb.2.1 hb.2.2.1 hb.2.2.2]
    rw [dictInsert_of_not_mem _ (hdisj b.1 (by simp))]
    rw [ih (fun x hx => hall x (List.mem_cons_of_mem _ hx)) hnd.2 _ ?_]
    · simp [expectedSchema]
    · intro k hk
      simp only [List.map_append, List.mem_append]
      push_neg
      refine ⟨hdisj k (by simp [hk]), ?_⟩
      intro hkk
      simp only [List.map_cons, List.map_nil, List.mem_singleton] at hkk
      exact hnd.1 (hkk ▸ hk)

theorem read_schema_render
    {blocks : List (List Char × List (List Char × List Char))}
    (hg : GoodBlocks blocks) {text : List Char}
    (h : filteredDDL text = renderSchemaCL blocks) :
    read_schema text = expectedSchema blocks := by
  rw [read_schema, h, findTables]
  rw [findTablesGo_render blocks
    (fun b hb => ⟨(hg.1 b hb).1, (hg.1 b hb).2.2.1⟩) _ (le_refl _)]
  have := foldl_schema_blocks hg.1 hg.2 [] (fun k _ => List.not_mem_nil k)
  simpa using this

theorem printable_char_facts : ∀ b : Nat, b < 127 → 32 ≤ b → b ≠ 92 →
    (Char.ofNat b ≠ '\\' ∧ utf8Bytes (Char.ofNat b) = [b]) := by decide

theorem escStep_esc_digit : ∀ m : Nat, m < 8 →
    escStep EscSt.esc (Char.ofNat (48 + m)) = (EscSt.oct m 2, []) := by decide

theorem isOctalDigit_digit : ∀ m : Nat, m < 8 →
    isOctalDigit (Char.ofNat (48 + m)) = true := by decide

theorem octVal_digit : ∀ m : Nat, m < 8 →
    octVal (Char.ofNat (48 + m)) = m := by decide

theorem escStep_oct_digit (v k : Nat) (hk : k ≠ 0) {m : Nat} (hm : m < 8) :
    escStep (EscSt.oct v k) (Char.ofNat (48 + m)) =
      (EscSt.oct (v * 8 + m) (k - 1), []) := by
  rw [escStep, if_pos ⟨isOctalDigit_digit m hm, hk⟩, octVal_digit m hm]

theorem escDecGo_oct_flush (v : Nat) (rest : List Char) :
    escDecGo (EscSt.oct v 0) rest =
      (escDecGo EscSt.plain rest).map (fun bs => v % 256 :: bs) := by
  cases rest with
  | nil => rfl
  | cons c r =>
    rw [escDecGo, escDecGo]
    by_cases hc : c = '\\'
    · subst hc
      have h1 : escStep (EscSt.oct v 0) '\\' = (EscSt.esc, [v % 256]) := by
        rw [escStep, if_neg (by intro h; exact h.2 rfl), if_pos rfl]
      have h2 : escStep EscSt.plain '\\' = (EscSt.esc, []) := by
        rw [escStep, if_pos rfl]
      rw [h1, h2]
      simp [Option.map_map]
    · have h1 : escStep (EscSt.oct v 0) c = (EscSt.plain, v % 256 :: utf8Bytes c) := by
        rw [escStep, if_neg (by intro h; exact h.2 rfl), if_neg hc]
      have h2 : escStep EscSt.plain c = (EscSt.plain, utf8Bytes c) := by
        rw [escStep, if_neg hc]
      rw [h1, h2]
      simp [Option.map_map]
      rfl

theorem escDecGo_octalEscapeByte (b : Nat) (hb : b < 256) (rest : List Char) :
    escDecGo EscSt.plain (octalEscapeByte b ++ rest) =
      (escDecGo EscSt.plain rest).map (fun bs => b :: bs) := by
  by_cases hp : 32 ≤ b ∧ b < 127 ∧ b ≠ 92
  · have hfacts := printable_char_facts b hp.2.1 hp.1 hp.2.2
    rw [octalEscapeByte, if_pos hp]
    simp only [List.cons_append, List.nil_append]
    rw [escDecGo]
    have hstep : escStep EscSt.plain (Char.ofNat b) =
        (EscSt.plain, utf8Bytes (Char.ofNat b)) := by
      rw [escStep, if_neg hfacts.1]
    rw [hstep, hfacts.2]
    rfl
  · rw [octalEscapeByte, if_neg hp]
    have hm1 : b / 64 % 8 < 8 := Nat.mod_lt _ (by omega)
    have hm2 : b / 8 % 8 < 8 := Nat.mod_lt _ (by omega)
    have hm3 : b % 8 < 8 := Nat.mod_lt _ (by omega)
    simp only [List.cons_append, List.nil_append]
    rw [escDecGo]
    have hstep0 : escStep EscSt.plain '\\' = (EscSt.esc, []) := by
      rw [escStep, if_pos rfl]
    rw [hstep0]
    rw [escDecGo, escStep_esc_digit _ hm1]
    rw [escDecGo, escStep_oct_digit _ 2 (by omega) hm2]
    rw [escDecGo, escStep_oct_digit _ 1 (by omega) hm3]
    have hval : (b / 64 % 8 * 8 + b / 8 % 8) * 8 + b % 8 = b := by omega
    rw [hval, escDecGo_oct_flush]
    have hmod : b % 256 = b := Nat.mod_eq_of_lt hb
    rw [hmod]
    cases escDecGo EscSt.plain rest <;> rfl

theorem escape_decode_octal_escape (bs : List Nat) (hb : ∀ b ∈ bs, b < 256) :
    escape_decode (octal_escape bs) = some bs := by
  induction bs with
  | nil => rfl
  | cons b bs ih =>
    have hflat : octal_escape (b :: bs) =
        octalEscapeByte b ++ octal_escape bs := by
      simp [octal_escape]
    rw [escape_decode, hflat,
      escDecGo_octalEscapeByte b (hb b (by simp))]
    rw [show escDecGo EscSt.plain (octal_escape bs) =
        escape_decode (octal_escape bs) from rfl]
    rw [ih (fun x hx => hb x (List.mem_cons_of_mem _ hx))]
    rfl

theorem prefix_head {a : Char} {p l : List Char}
    (h : (a :: p).isPrefixOf l = true) : ∃ t, l = a :: t := by
  cases l with
  | nil => simp [List.isPrefixOf] at h
  | cons c l2 =>
    simp only [List.isPrefixOf, Bool.and_eq_true, beq_iff_eq] at h
    exact ⟨l2, by rw [h.1]⟩

theorem not_prefix_of_prefix_ne {a b : Char} (hne : a ≠ b) {p q l : List Char}
    (h : (a :: p).isPrefixOf l = true) : (b :: q).isPrefixOf l = false := by
  obtain ⟨t, rfl⟩ := prefix_head h
  cases hb : (b :: q).isPrefixOf (a :: t) with
  | false => rfl
  | true =>
    obtain ⟨t2, heq⟩ := prefix_head hb
    injection heq with h3
    exact absurd h3 hne

theorem mapOption_map_roundtrip {α β : Type} {f : β → Option α} {g : α → β}
    {l : List α} (h : ∀ x ∈ l, f (g x) = some x) :
    mapOption f (l.map g) = some l := by
  induction l with
  | nil => rfl
  | cons a l ih =>
    simp only [List.map_cons, mapOption]
    rw [h a (by simp), ih (fun x hx => h x (List.mem_cons_of_mem _ hx))]
    rfl

theorem mapOption_is_some {α β : Type} {f : α → Option β} {l : List α}
    (h : ∀ x ∈ l, f x ≠ none) : ∃ ys, mapOption f l = some ys := by
  induction l with
  | nil => exact ⟨[], rfl⟩
  | cons a l ih =>
    obtain ⟨ys, hys⟩ := ih (fun x hx => h x (List.mem_cons_of_mem _ hx))
    cases hfa : f a with
    | none => exact absurd hfa (h a (by simp))
    | some b =>
      refine ⟨b :: ys, ?_⟩
      rw [mapOption, hfa, hys]
      rfl

theorem tpsEntry_true_total (p : List Char × List Char) :
    ∃ v, tpsEntry true p = some (p.1, v) := by
  cases hex : extract_dtype p.2 with
  | some dt => exact ⟨dt, by simp [tpsEntry, hex]⟩
  | none => exact ⟨NpDtype.str, by simp [tpsEntry, hex]⟩

theorem filterMap_tpsEntry_true_keys (defs : List (List Char × List Char)) :
    (defs.filterMap (tpsEntry true)).map Prod.fst = defs.map Prod.fst := by
  induction defs with
  | nil => rfl
  | cons p defs ih =>
    obtain ⟨v, hv⟩ := tpsEntry_true_total p
    simp only [List.filterMap_cons, hv, List.map_cons, ih]

/-- C3: for every raw declared-type string, the Type Mapper applies a
case-insensitive prefix match in fixed order: prefix `double` yields Float
(`np.float_`), prefix `long` yields Integer (`np.int_`), prefix `bool`
yields Boolean (`np.bool_`), prefix `text` or `memo` yields Text
(`np.str_`), prefix `ole` yields Bytes (`np.bytes_`), and a string
matching none of these yields the unknown marker `None`.  Case
insensitivity is the match against the lowercased string; the six prefixes
start with pairwise distinct letters, so each prefix condition alone
determines the outcome. -/
theorem c3_extract_dtype_prefix_table (s : List Char) :
    ("double".toList.isPrefixOf (s.map Char.toLower) = true →
      extract_dtype s = some NpDtype.float) ∧
    ("long".toList.isPrefixOf (s.map Char.toLower) = true →
      extract_dtype s = some NpDtype.int) ∧
    ("bool".toList.isPrefixOf (s.map Char.toLower) = true →
      extract_dtype s = some NpDtype.bool) ∧
    ("text".toList.isPrefixOf (s.map Char.toLower) = true →
      extract_dtype s = some NpDtype.str) ∧
    ("memo".toList.isPrefixOf (s.map Char.toLower) = true →
      extract_dtype s = some NpDtype.str) ∧
    ("ole".toList.isPrefixOf (s.map Char.toLower) = true →
      extract_dtype s = some NpDtype.bytes) ∧
    ("double".toList.isPrefixOf (s.map Char.toLower) = false →
      "long".toList.isPrefixOf (s.map Char.toLower) = false →
      "bool".toList.isPrefixOf (s.map Char.toLower) = false →
      "text".toList.isPrefixOf (s.map Char.toLower) = false →
      "memo".toList.isPrefixOf (s.map Char.toLower) = false →
      "ole".toList.isPrefixOf (s.map Char.toLower) = false →
      extract_dtype s = none) := by
  refine ⟨?_, ?_, ?_, ?_, ?_, ?_, ?_⟩
  · intro h
    simp at h
    simp [extract_dtype, h]
  · intro h
    have hd : "double".toList.isPrefixOf (s.map Char.toLower) = false :=
      not_prefix_of_prefix_ne (by decide) h
    simp at h hd
    simp [extract_dtype, h, hd]
  · intro h
    have hd : "double".toList.isPrefixOf (s.map Char.toLower) = false :=
      not_prefix_of_prefix_ne (by decide) h
    have hl : "long".toList.isPrefixOf (s.map Char.toLower) = false :=
      not_prefix_of_prefix_ne (by decide) h
    simp at h hd hl
    simp [extract_dtype, h, hd, hl]
  · intro h
    have hd : "double".toList.isPrefixOf (s.map Char.toLower) = false :=
      not_prefix_of_prefix_ne (by decide) h
    have hl : "long".toList.isPrefixOf (s.map Char.toLower) = false :=
      not_prefix_of_prefix_ne (by decide) h
    have hb : "bool".toList.isPrefixOf (s.map Char.toLower) = false :=
      not_prefix_of_prefix_ne (by decide) h
    simp at h hd hl hb
    simp [extract_dtype, h, hd, hl, hb]
  · intro h
    have hd : "double".toList.isPrefixOf (s.map Char.toLower) = false :=
      not_prefix_of_prefix_ne (by decide) h
    have hl : "long".toList.isPrefixOf (s.map Char.toLower) = false :=
      not_prefix_of_prefix_ne (by decide) h
    have hb : "bool".toList.isPrefixOf (s.map Char.toLower) = false :=
      not_prefix_of_prefix_ne (by decide) h
    simp at h hd hl hb
    simp [extract_dtype, h, hd, hl, hb]
  · intro h
    have hd : "double".toList.isPrefixOf (s.map Char.toLower) = false :=
      not_prefix_of_prefix_ne (by decide) h
    have hl : "long".toList.isPrefixOf (s.map Char.toLower) = false :=
      not_prefix_of_prefix_ne (by decide) h
    have hb : "bool".toList.isPrefixOf (s.map Char.toLower) = false :=
      not_prefix_of_prefix_ne (by decide) h
    have ht : "text".toList.isPrefixOf (s.map Char.toLower) = false :=
      not_prefix_of_prefix_ne (by decide) h
    have hm : "memo".toList.isPrefixOf (s.map Char.toLower) = false :=
      not_prefix_of_prefix_ne (by decide) h
    simp at h hd hl hb ht hm
    simp [extract_dtype, h, hd, hl, hb, ht, hm]
  · intro hd hl hb ht hm ho
    simp at hd hl hb ht hm ho
    simp [extract_dtype, hd, hl, hb, ht, hm, ho]

/-- C3 witness: the prefix table evaluated at concrete declared-type
strings, one per outcome. -/
theorem c3_witness :
    extract_dtype "Double Precision".toList = some NpDtype.float ∧
    extract_dtype "Long Integer".toList = some NpDtype.int ∧
    extract_dtype "Boolean NOT NULL".toList = some NpDtype.bool ∧
    extract_dtype "Text (50)".toList = some NpDtype.str ∧
    extract_dtype "Memo/Hyperlink (255)".toList = some NpDtype.str ∧
    extract_dtype "OLE".toList = some NpDtype.bytes ∧
    extract_dtype "Numeric (10,2)".toList = none :=
  ⟨(c3_extract_dtype_prefix_table _).1 (by decide),
   (c3_extract_dtype_prefix_table _).2.1 (by decide),
   (c3_extract_dtype_prefix_table _).2.2.1 (by decide),
   (c3_extract_dtype_prefix_table _).2.2.2.1 (by decide),
   (c3_extract_dtype_prefix_table _).2.2.2.2.1 (by decide),
   (c3_extract_dtype_prefix_table _).2.2.2.2.2.1 (by decide),
   (c3_extract_dtype_prefix_table _).2.2.2.2.2.2 (by decide) (by decide)
     (by decide) (by decide) (by decide) (by decide)⟩

/-- C4: for every column whose declared-type string matches none of the
five prefixes, with `implicit_string = true` the column is assigned Text
(`np.str_`) in the Typed Schema, and with `implicit_string = false` the
column is entirely absent from the Typed Schema; the mapping is a total
function, so no error is raised in either case.  Column names of a Table
Definition are distinct because `_extract_defs` builds a dict. -/
theorem c4_unmatched_type_fallback (defs : List (List Char × List Char))
    (c ty : List Char) (hnd : (defs.map Prod.fst).Nodup)
    (hmem : (c, ty) ∈ defs) (hun : extract_dtype ty = none) :
    lookupD (to_pandas_schema_table defs true) c = some NpDtype.str ∧
    lookupD (to_pandas_schema_table defs false) c = none := by
  rw [to_pandas_schema_table_eq_filterMap defs true hnd,
    to_pandas_schema_table_eq_filterMap defs false hnd]
  constructor
  · have he : tpsEntry true (c, ty) = some (c, NpDtype.str) := by
      simp [tpsEntry, hun]
    have hmem2 : (c, NpDtype.str) ∈ defs.filterMap (tpsEntry true) :=
      List.mem_filterMap.mpr ⟨(c, ty), hmem, he⟩
    exact lookupD_of_mem_nodup hmem2
      ((tpsEntry_keys_sublist true defs).nodup hnd)
  · apply lookupD_eq_none
    intro hc
    obtain ⟨q, hq, hqc⟩ := List.mem_map.mp hc
    obtain ⟨p, hp, hpe⟩ := List.mem_filterMap.mp hq
    have hpc : p.1 = c := (tpsEntry_key hpe) ▸ hqc
    have h1 : lookupD defs c = some ty := lookupD_of_mem_nodup hmem hnd
    have h2 : lookupD defs c = some p.2 := by
      rw [← hpc]
      exact lookupD_of_mem_nodup (by simpa using hp) hnd
    rw [h1] at h2
    injection h2 with h3
    rw [tpsEntry, ← h3, hun] at hpe
    simp at hpe

/-- C4 witness: a one-column table with the unmapped declared type
`Numeric (10,2)` is typed Text under the implicit-string default and
dropped otherwise. -/
theorem c4_witness :
    lookupD (to_pandas_schema_table [("A".toList, "Numeric (10,2)".toList)]
      true) "A".toList = some NpDtype.str ∧
    lookupD (to_pandas_schema_table [("A".toList, "Numeric (10,2)".toList)]
      false) "A".toList = none :=
  c4_unmatched_type_fallback [("A".toList, "Numeric (10,2)".toList)]
    "A".toList "Numeric (10,2)".toList (by decide) (by decide) (by decide)

/-- C9: for every Schema and every table in it, the Typed Schema produced
for the table is keyed by the same column names in the same insertion
order as the Table Definition: the typed keys are a sublist of the
definition keys (no new names, no reordering), with
`implicit_string = true` they coincide, with `implicit_string = false`
only unmapped columns may be omitted, and a column whose declared type was
mapped is never removed.  Key uniqueness holds for dict-built schemas. -/
theorem c9_typed_schema_keys
    (schema : List (List Char × List (List Char × List Char)))
    (implicit_string : Bool) (tbl : List Char)
    (defs : List (List Char × List Char))
    (hnds : (schema.map Prod.fst).Nodup)
    (hndd : (defs.map Prod.fst).Nodup)
    (hlook : lookupD schema tbl = some defs) :
    lookupD (to_pandas_schema schema implicit_string) tbl =
      some (to_pandas_schema_table defs implicit_string) ∧
    ((to_pandas_schema_table defs implicit_string).map Prod.fst).Sublist
      (defs.map Prod.fst) ∧
    (implicit_string = true →
      (to_pandas_schema_table defs implicit_string).map Prod.fst =
        defs.map Prod.fst) ∧
    (∀ c ty, (c, ty) ∈ defs → extract_dtype ty ≠ none →
      c ∈ (to_pandas_schema_table defs implicit_string).map Prod.fst) := by
  refine ⟨?_, ?_, ?_, ?_⟩
  · rw [to_pandas_schema_eq_map schema implicit_string hnds]
    rw [lookupD_map_snd (fun d => to_pandas_schema_table d implicit_string)
      schema tbl, hlook]
    rfl
  · rw [to_pandas_schema_table_eq_filterMap defs implicit_string hndd]
    exact tpsEntry_keys_sublist implicit_string defs
  · intro his
    subst his
    rw [to_pandas_schema_table_eq_filterMap defs true hndd]
    exact filterMap_tpsEntry_true_keys defs
  · intro c ty hmem hmap
    rw [to_pandas_schema_table_eq_filterMap defs implicit_string hndd]
    cases hex : extract_dtype ty with
    | none => exact absurd hex hmap
    | some dt =>
      have he : tpsEntry implicit_string (c, ty) = some (c, dt) := by
        simp [tpsEntry, hex]
      exact List.mem_map.mpr ⟨(c, dt),
        List.mem_filterMap.mpr ⟨(c, ty), hmem, he⟩, rfl⟩

/-- C9 witness: a two-table schema where table `T` has a mapped `Long
Integer` column and an unmapped `Numeric` column; all four conjuncts
evaluated at it. -/
theorem c9_witness :
    lookupD (to_pandas_schema
        [("T".toList, [("A".toList, "Long Integer".toList),
          ("B".toList, "Numeric".toList)]),
         ("U".toList, [("C".toList, "OLE".toList)])] false) "T".toList =
      some (to_pandas_schema_table [("A".toList, "Long Integer".toList),
        ("B".toList, "Numeric".toList)] false) ∧
    ((to_pandas_schema_table [("A".toList, "Long Integer".toList),
        ("B".toList, "Numeric".toList)] false).map Prod.fst).Sublist
      ["A".toList, "B".toList] ∧
    "A".toList ∈ (to_pandas_schema_table
      [("A".toList, "Long Integer".toList),
       ("B".toList, "Numeric".toList)] false).map Prod.fst := by
  have h := c9_typed_schema_keys
    [("T".toList, [("A".toList, "Long Integer".toList),
      ("B".toList, "Numeric".toList)]),
     ("U".toList, [("C".toList, "OLE".toList)])] false "T".toList
    [("A".toList, "Long Integer".toList), ("B".toList, "Numeric".toList)]
    (by decide) (by decide) (by decide)
  exact ⟨h.1, h.2.1, h.2.2.2 "A".toList "Long Integer".toList (by decide)
    (by decide)⟩

/-- C6: for all valid schema-dump text whose content, after blank and
`-`-prefixed comment lines are dropped, consists of N well-formed
`CREATE TABLE [T] (defs);` blocks (rendered in the dump format with
word-character names, at least one column per table, type strings free of
line breaks and semicolons, and distinct names), the Schema Scraper
returns a Schema with exactly N table entries in block order, each table's
columns in the order their definitions appear in the text, with each
declared type stored comma-stripped and whitespace-trimmed. -/
theorem c6_read_schema_block_count
    (blocks : List (List Char × List (List Char × List Char)))
    (text : List Char) (hg : GoodBlocks blocks)
    (h : filteredDDL text = renderSchemaCL blocks) :
    read_schema text = expectedSchema blocks ∧
    (read_schema text).length = blocks.length := by
  have h1 := read_schema_render hg h
  refine ⟨h1, ?_⟩
  rw [h1]
  simp [expectedSchema]

/-- C6 witness: a concrete dump with a comment line and a blank line
around two well-formed blocks scrapes to exactly those two tables with
columns in textual order. -/
theorem c6_witness :
    read_schema ("-- comment\nCREATE TABLE [Foo]\n (\n\t[A]\tLong Integer,\n\t[B]\tText (50)\n);\n\nCREATE TABLE [Bar]\n (\n\t[C]\tOLE\n);").toList =
      [("Foo".toList, [("A".toList, "Long Integer".toList),
        ("B".toList, "Text (50)".toList)]),
       ("Bar".toList, [("C".toList, "OLE".toList)])] ∧
    (read_schema ("-- comment\nCREATE TABLE [Foo]\n (\n\t[A]\tLong Integer,\n\t[B]\tText (50)\n);\n\nCREATE TABLE [Bar]\n (\n\t[C]\tOLE\n);").toList).length = 2 := by
  have h := c6_read_schema_block_count
    [("Foo".toList, [("A".toList, "Long Integer".toList),
      ("B".toList, "Text (50)".toList)]),
     ("Bar".toList, [("C".toList, "OLE".toList)])]
    ("-- comment\nCREATE TABLE [Foo]\n (\n\t[A]\tLong Integer,\n\t[B]\tText (50)\n);\n\nCREATE TABLE [Bar]\n (\n\t[C]\tOLE\n);").toList
    (by decide) (by decide)
  refine ⟨?_, h.2⟩
  rw [h.1]
  decide

/-- C1 (amended): for every call of `read_table` with
`converters_from_schema = true` where the named table is absent from the
scraped schema, the call fails with a `KeyError` from the dict lookup
`schemas[table_name]` — not a silent empty result.  (The spec's
`SchemaLookupError` does not exist in the source; the failure is the
plain dict `KeyError`.) -/
theorem c1_missing_table_keyerror (schema_text table_name : List Char)
    (specified_dtypes : List (List Char × NpDtype)) (implicit_string : Bool)
    (df : List (List Char × List (List Char)))
    (h : lookupD (read_schema schema_text) table_name = none) :
    read_table schema_text table_name true specified_dtypes implicit_string
      df = .error (.keyError table_name) := by
  rw [read_table.eq_def, if_pos rfl,
    to_pandas_schema_lookup_none _ implicit_string _ h]

/-- C1 counterexample: on a dump containing only table `Bar`, reading the
absent table `Foo` with `converters_from_schema = true` fails with
`KeyError`, and with no `SchemaLookupError` of any table name — the claim
that the call fails with `SchemaLookupError` is false on the code, which
defines no such exception. -/
theorem c1_counterexample :
    read_table "CREATE TABLE [Bar]\n (\n\t[C]\tOLE\n);".toList "Foo".toList
        true [] true [] = .error (.keyError "Foo".toList) ∧
    ¬ ∃ s, read_table "CREATE TABLE [Bar]\n (\n\t[C]\tOLE\n);".toList
        "Foo".toList true [] true [] = .error (.schemaLookupError s) := by
  refine ⟨by decide, ?_⟩
  rintro ⟨s, hs⟩
  rw [show read_table "CREATE TABLE [Bar]\n (\n\t[C]\tOLE\n);".toList
      "Foo".toList true [] true [] = .error (.keyError "Foo".toList)
    by decide] at hs
  injection hs with h2
  exact PyErr.noConfusion h2

/-- C1 witness: the amended claim evaluated at the concrete dump with only
table `Bar` and the absent table name `Foo`. -/
theorem c1_witness :
    lookupD (read_schema "CREATE TABLE [Bar]\n (\n\t[C]\tOLE\n);".toList)
      "Foo".toList = none ∧
    read_table "CREATE TABLE [Bar]\n (\n\t[C]\tOLE\n);".toList "Foo".toList
      true [] true [("C".toList, [])] = .error (.keyError "Foo".toList) :=
  ⟨by decide, c1_missing_table_keyerror _ _ _ _ _ (by decide)⟩

/-- C2: for every call of `read_table` with
`converters_from_schema = false`, the local `dtypes` is never assigned, so
as soon as the parsed table has at least one column the post-pass read of
`dtypes[column]` raises an unhandled `NameError` (`UnboundLocalError`)
after CSV parsing; such a call never returns a tabular result (a
successful CSV parse of the export stream always has at least one
column). -/
theorem c2_no_converters_nameerror (schema_text table_name : List Char)
    (specified_dtypes : List (List Char × NpDtype)) (implicit_string : Bool)
    (df : List (List Char × List (List Char))) (hne : df ≠ []) :
    read_table schema_text table_name false specified_dtypes implicit_string
      df = .error (.nameError "dtypes".toList) := by
  rw [read_table.eq_def, if_neg (by simp)]
  cases df with
  | nil => exact absurd rfl hne
  | cons p rest => rfl

/-- C2 witness: the `NameError` at a concrete one-column parse with
`converters_from_schema = false`. -/
theorem c2_witness :
    read_table "CREATE TABLE [Foo]\n (\n\t[A]\tText (50)\n);".toList
      "Foo".toList false [] true [("A".toList, ["x".toList])] =
      .error (.nameError "dtypes".toList) :=
  c2_no_converters_nameerror _ _ _ _ _ (by decide)

/-- C5 counterexample: on the column-definition line
`\t[A]\tNumeric (10,2),` the code stores `Numeric (102)` — the interior
comma of the size specification is removed by `replace(",", "")`, not
preserved as the claim states. -/
theorem c5_counterexample :
    extract_defs "\t[A]\tNumeric (10,2),".toList =
      [("A".toList, "Numeric (102)".toList)] ∧
    "Numeric (102)".toList ≠ "Numeric (10,2)".toList := by
  exact ⟨by decide, by decide⟩

/-- C5 (amended): for every line inside a matched CREATE TABLE block,
column-def parsing extracts a bracketed column name and a trailing type
description from which ALL commas — trailing and interior alike — are
removed, after which surrounding whitespace is trimmed
(`group(2).replace(",", "").strip()`); lines not matching the
bracketed-name shape are silently skipped without error. -/
theorem c5_defline_commas_stripped :
    (∀ sp1 name rest : List Char,
      (∀ c ∈ sp1, isPySpace c = true) → WordName name →
      (∀ c ∈ sp1 ++ '[' :: (name ++ ']' :: rest), isLineBreak c = false) →
      extract_defs (sp1 ++ '[' :: (name ++ ']' :: rest)) =
        [(name, pyStripCL (removeCommas rest))]) ∧
    (∀ line : List Char, (∀ c ∈ line, isLineBreak c = false) →
      defLineMatch line = none → extract_defs line = []) := by
  constructor
  · intro sp1 name rest hsp hw hbf
    have hne : sp1 ++ '[' :: (name ++ ']' :: rest) ≠ [] := by simp
    rw [extract_defs, pySplitlinesCL_single hbf hne]
    simp only [List.foldl_cons, List.foldl_nil]
    rw [defsStep, defLineMatch_shape rest hsp hw]
    show dictInsert name
        (pyStripCL (removeCommas (rest.dropWhile isPySpace))) [] =
      [(name, pyStripCL (removeCommas rest))]
    rw [strip_rc_dropWhile]
    rfl
  · intro line hbf hnomatch
    cases hl : line with
    | nil => rfl
    | cons c rest =>
      rw [← hl, extract_defs, pySplitlinesCL_single hbf (by rw [hl]; simp)]
      simp only [List.foldl_cons, List.foldl_nil]
      exact defsStep_skip [] hnomatch

/-- C5 witness: the amended extraction evaluated on the concrete line
`\t[Col]\tText (50),` (trailing comma dropped, whitespace trimmed) and
the silent skip on the shapeless line `not a definition`. -/
theorem c5_witness :
    extract_defs "\t[Col]\tText (50),".toList =
      [("Col".toList, "Text (50)".toList)] ∧
    extract_defs "not a definition".toList = [] := by
  constructor
  · have h := c5_defline_commas_stripped.1 ['\t'] "Col".toList
      "\tText (50),".toList (by decide) (by decide) (by decide)
    exact h.trans (by decide)
  · exact c5_defline_commas_stripped.2 "not a definition".toList (by decide)
      (by decide)

/-- C7: with `converters_from_schema = true`, caller-supplied `dtype`
overrides are overlaid on the schema-inferred type hints and win on every
conflicting column (on non-overridden columns the schema hint is kept),
and the merged hint map is passed to the CSV parser as its `dtype`
argument exactly when it is non-empty.  In particular an explicit
override of Text on a column inferred as Integer makes the merged map —
and hence the map handed to the parser — type that column as Text. -/
theorem c7_dtype_overrides_win (schema_text table_name : List Char)
    (specified_dtypes : List (List Char × NpDtype)) (implicit_string : Bool)
    (d : List (List Char × NpDtype))
    (hnd : (specified_dtypes.map Prod.fst).Nodup)
    (hlook : lookupD (to_pandas_schema (read_schema schema_text)
      implicit_string) table_name = some d) :
    (∀ col v, lookupD specified_dtypes col = some v →
      lookupD (dictUpdate d specified_dtypes) col = some v) ∧
    (∀ col, lookupD specified_dtypes col = none →
      lookupD (dictUpdate d specified_dtypes) col = lookupD d col) ∧
    (dictUpdate d specified_dtypes ≠ [] →
      read_table_dtype_kwarg schema_text table_name specified_dtypes
        implicit_string = .ok (some (dictUpdate d specified_dtypes))) ∧
    (dictUpdate d specified_dtypes = [] →
      read_table_dtype_kwarg schema_text table_name specified_dtypes
        implicit_string = .ok none) := by
  refine ⟨?_, ?_, ?_, ?_⟩
  · intro col v hv
    rw [lookupD_dictUpdate d specified_dtypes col hnd, hv]
  · intro col hv
    rw [lookupD_dictUpdate d specified_dtypes col hnd, hv]
  · intro hne
    rw [read_table_dtype_kwarg, hlook]
    show Except.ok (if dictUpdate d specified_dtypes = [] then none
      else some (dictUpdate d specified_dtypes)) = _
    rw [if_neg hne]
  · intro he
    rw [read_table_dtype_kwarg, hlook]
    show Except.ok (if dictUpdate d specified_dtypes = [] then none
      else some (dictUpdate d specified_dtypes)) = _
    rw [if_pos he]

/-- C7 witness: on a dump whose table `Foo` has column `A` inferred as
Integer, the caller override `A ↦ Text` wins in the merged map and the
merged map is passed to the parser. -/
theorem c7_witness :
    lookupD (dictUpdate [("A".toList, NpDtype.int)]
      [("A".toList, NpDtype.str)]) "A".toList = some NpDtype.str ∧
    read_table_dtype_kwarg
        "CREATE TABLE [Foo]\n (\n\t[A]\tLong Integer\n);".toList
        "Foo".toList [("A".toList, NpDtype.str)] true =
      .ok (some (dictUpdate [("A".toList, NpDtype.int)]
        [("A".toList, NpDtype.str)])) := by
  have h := c7_dtype_overrides_win
    "CREATE TABLE [Foo]\n (\n\t[A]\tLong Integer\n);".toList
    "Foo".toList [("A".toList, NpDtype.str)] true
    [("A".toList, NpDtype.int)] (by decide) (by decide)
  exact ⟨h.1 "A".toList NpDtype.str (by decide), h.2.2.1 (by decide)⟩

theorem postPass_cons_none (m : List (List Char × NpDtype))
    (col : List Char) (cells : List (List Char))
    (rest : List (List Char × List (List Char)))
    (h : lookupD m col = none) :
    postPass m ((col, cells) :: rest) = .error (.keyError col) := by
  rw [postPass, h]

theorem postPass_cons_bytes (m : List (List Char × NpDtype))
    (col : List Char) (cells : List (List Char))
    (rest : List (List Char × List (List Char))) (ys : List (List Nat))
    (h : lookupD m col = some NpDtype.bytes)
    (hy : mapOption escape_decode cells = some ys) :
    postPass m ((col, cells) :: rest) =
      (postPass m rest).map
        (fun r => (col, ys.map CellData.bytes) :: r) := by
  rw [postPass, h]
  show (match mapOption escape_decode cells with
    | none => Except.error (PyErr.valueError [])
    | some bss =>
      (postPass m rest).map
        (fun r => (col, bss.map CellData.bytes) :: r)) = _
  rw [hy]

theorem postPass_cons_other (m : List (List Char × NpDtype))
    (col : List Char) (cells : List (List Char))
    (rest : List (List Char × List (List Char))) (dt : NpDtype)
    (h : lookupD m col = some dt) (hne : dt ≠ NpDtype.bytes) :
    postPass m ((col, cells) :: rest) =
      (postPass m rest).map
        (fun r => (col, cells.map CellData.text) :: r) := by
  rw [postPass, h]
  show (if dt = NpDtype.bytes then
      match mapOption escape_decode cells with
      | none => Except.error (PyErr.valueError [])
      | some bss =>
        (postPass m rest).map
          (fun r => (col, bss.map CellData.bytes) :: r)
    else
      (postPass m rest).map
        (fun r => (col, cells.map CellData.text) :: r)) = _
  rw [if_neg hne]

/-- C8: for every column whose resolved type is Bytes (`np.bytes_`),
`read_table`'s post-pass maps each cell's octal-escaped text to the raw
decoded bytes: escape-decode is a left inverse of the export tool's octal
escaping, so a whole column of octal-escaped byte strings decodes back to
exactly the original byte strings. -/
theorem c8_bytes_octal_roundtrip (dtypes : List (List Char × NpDtype))
    (col : List Char) (cellsB : List (List Nat))
    (hdt : lookupD dtypes col = some NpDtype.bytes)
    (hb : ∀ bs ∈ cellsB, ∀ b ∈ bs, b < 256) :
    postPass dtypes [(col, cellsB.map octal_escape)] =
      .ok [(col, cellsB.map CellData.bytes)] := by
  have hdec : mapOption escape_decode (cellsB.map octal_escape) =
      some cellsB :=
    mapOption_map_roundtrip
      (fun bs hbs => escape_decode_octal_escape bs (hb bs hbs))
  rw [postPass_cons_bytes dtypes col _ [] cellsB hdt hdec]
  rfl

/-- C8 witness: a cell holding the octal escape of `b"\x00\x01\xff"`
decodes through the post-pass back to exactly the bytes 0, 1, 255. -/
theorem c8_witness :
    postPass [("B".toList, NpDtype.bytes)]
        [("B".toList, [octal_escape [0, 1, 255]])] =
      .ok [("B".toList, [CellData.bytes [0, 1, 255]])] := by
  have h := c8_bytes_octal_roundtrip [("B".toList, NpDtype.bytes)]
    "B".toList [[0, 1, 255]] (by decide) (by decide)
  exact h

/-- The post-pass of `read_table` fails with a `KeyError` naming a column
absent from the type-hint dict, provided every cell of the earlier Bytes
columns decodes (otherwise their `ValueError` fires first). -/
theorem postPass_missing_key (m : List (List Char × NpDtype))
    (df : List (List Char × List (List Char)))
    (hdec : ∀ p ∈ df, ∀ x ∈ p.2, escape_decode x ≠ none)
    (hmiss : ∃ p ∈ df, lookupD m p.1 = none) :
    ∃ c, postPass m df = .error (.keyError c) ∧ lookupD m c = none := by
  induction df with
  | nil => simp at hmiss
  | cons p rest ih =>
    rcases p with ⟨col, cells⟩
    cases hl : lookupD m col with
    | none => exact ⟨col, postPass_cons_none m col cells rest hl, hl⟩
    | some dt =>
      obtain ⟨q, hq, hqn⟩ := hmiss
      have hqrest : q ∈ rest := by
        rcases List.mem_cons.mp hq with hh | hh
        · rw [hh] at hqn
          rw [hl] at hqn
          cases hqn
        · exact hh
      obtain ⟨c, hc1, hc2⟩ :=
        ih (fun x hx y hy => hdec x (List.mem_cons_of_mem _ hx) y hy)
          ⟨q, hqrest, hqn⟩
      refine ⟨c, ?_, hc2⟩
      by_cases hbytes : dt = NpDtype.bytes
      · subst hbytes
        obtain ⟨ys, hys⟩ := mapOption_is_some
          (fun x hx => hdec (col, cells) (by simp) x hx)
        rw [postPass_cons_bytes m col cells rest ys hl hys, hc1]
        rfl
      · rw [postPass_cons_other m col cells rest dt hl hbytes, hc1]
        rfl

/-- C10: for every call of `read_table` with
`converters_from_schema = true` in which the parsed CSV contains a column
absent from the merged type-hint map (for example `implicit_string =
false` with an unmapped declared type and no `dtype` override), the
post-pass lookup `dtypes[column]` raises an unhandled `KeyError` — the
whole call fails after CSV parsing rather than leaving the column without
a hint.  (Cells of Bytes-typed columns are assumed to decode, since a
malformed earlier cell would surface its `ValueError` first.) -/
theorem c10_missing_hint_keyerror (schema_text table_name : List Char)
    (specified_dtypes : List (List Char × NpDtype)) (implicit_string : Bool)
    (df : List (List Char × List (List Char)))
    (d : List (List Char × NpDtype))
    (hlook : lookupD (to_pandas_schema (read_schema schema_text)
      implicit_string) table_name = some d)
    (hdec : ∀ p ∈ df, ∀ x ∈ p.2, escape_decode x ≠ none)
    (hmiss : ∃ p ∈ df, lookupD (dictUpdate d specified_dtypes) p.1 = none) :
    ∃ c, read_table schema_text table_name true specified_dtypes
        implicit_string df = .error (.keyError c) ∧
      lookupD (dictUpdate d specified_dtypes) c = none := by
  obtain ⟨c, hc1, hc2⟩ :=
    postPass_missing_key (dictUpdate d specified_dtypes) df hdec hmiss
  refine ⟨c, ?_, hc2⟩
  rw [read_table.eq_def, if_pos rfl, hlook]
  exact hc1

/-- C10 witness: with `implicit_string = false` and table `Foo` whose only
column `A` has the unmapped type `Numeric`, the merged hint map is empty
and the call fails with `KeyError` on column `A` after parsing. -/
theorem c10_witness :
    read_table "CREATE TABLE [Foo]\n (\n\t[A]\tNumeric\n);".toList
        "Foo".toList true [] false [("A".toList, ["1".toList])] =
      .error (.keyError "A".toList) := by
  obtain ⟨c, hc1, hc2⟩ := c10_missing_hint_keyerror
    "CREATE TABLE [Foo]\n (\n\t[A]\tNumeric\n);".toList "Foo".toList []
    false [("A".toList, ["1".toList])] [] (by decide) (by decide)
    ⟨("A".toList, ["1".toList]), by decide, by decide⟩
  have hpin : Except.error (α := List (List Char × List CellData))
      (PyErr.keyError c) = .error (.keyError "A".toList) := by
    rw [← hc1]
    decide
  rw [hc1, hpin]
